import Mathlib

/-!
# Verification of `src/space-invaders.ts`

Shallow embedding of the space-invaders game. JS numbers that only ever
hold integers are modelled as `Int`; the mutable `SpaceInvaders` object is
a `GameState` record and each method becomes a state-transforming function.
The module-level id counter `count` is a field of the state.

`getCoordinate` in the source builds the string `(x,y)`; on integer
coordinates two such strings are equal iff the coordinate pairs are equal,
so coordinate-string membership in the `Set` is modelled as pair equality.
-/

namespace SpaceInvaders

/-- `enum Direction` from the source. -/
inductive Direction where
  | Left : Direction
  | Right : Direction
  deriving DecidableEq, Repr

/-- Key names the handler in `setupInputHandling` distinguishes
(`left`, `right`, `q`, `c`, `space`); every other key falls through. -/
inductive KeyName where
  | left : KeyName
  | right : KeyName
  | q : KeyName
  | c : KeyName
  | space : KeyName
  | other : KeyName
  deriving DecidableEq, Repr

/-- A keypress event: `key.name` plus the `key.ctrl` modifier flag. -/
structure Key where
  name : KeyName
  ctrl : Bool
  deriving DecidableEq, Repr

/-- `BoardCharacter.BaseBoardBackground`. -/
def baseBoardBackground : Char := ' '

/-- `BoardCharacter.FullBoardBackground`. -/
def fullBoardBackground : Char := 'y'

/-- `BoardCharacter.Player`. -/
def playerChar : Char := '▲'

/-- `BoardCharacter.Enemy`. -/
def enemyChar : Char := '■'

/-- `BoardCharacter.Bullet`. -/
def bulletChar : Char := '.'

/-- `flipDirection` from the source. -/
def flipDirection (direction : Direction) : Direction :=
  if direction = Direction.Left then Direction.Right else Direction.Left

/-- `class Enemy`: position, display character and unique id. -/
structure Enemy where
  x : Int
  y : Int
  character : Char
  id : Nat
  deriving DecidableEq, Repr

/-- `class Bullet`: position, display character and unique id. -/
structure Bullet where
  x : Int
  y : Int
  character : Char
  id : Nat
  deriving DecidableEq, Repr

/-- The player record `{ x, y }`. -/
structure Player where
  x : Int
  y : Int
  deriving DecidableEq, Repr

/-- `this.width`, assigned `40` in the constructor and never reassigned. -/
def width : Int := 40

/-- `this.height`, assigned `20` in the constructor and never reassigned. -/
def height : Int := 20

/-- The mutable fields of the `SpaceInvaders` object, together with the
module-level id counter `count`. -/
structure GameState where
  player : Player
  isGameRunning : Bool
  enemies : List Enemy
  enemyDirection : Direction
  bullets : List Bullet
  count : Nat
  deriving DecidableEq, Repr

/-- `createEnemies`: 3 rows × 8 columns, x-spacing 3 from x = 3,
y-spacing 2 from y = 1, ids handed out row-major by `createId`
(the counter starts at 0, so the first enemy gets id 1). -/
def createEnemies : List Enemy :=
  (List.range 3).flatMap (fun (row : Nat) =>
    (List.range 8).map (fun (col : Nat) =>
      { x := 3 + (col : Int) * 3
        y := 1 + (row : Int) * 2
        character := enemyChar
        id := (row * 8 + col + 1 : Nat) }))

/-- The state built by the `SpaceInvaders` constructor: player at the bottom
centre `(⌊width/2⌋, height-1)`, game running, direction `Right`, the 3×8
enemy grid, no bullets; creating the 24 enemies leaves the counter at 24. -/
def initState : GameState :=
  { player := { x := 20, y := height - 1 }
    isGameRunning := true
    enemies := createEnemies
    enemyDirection := Direction.Right
    bullets := []
    count := 24 }

/-- `createBullet`: push a new bullet at `(player.x, player.y - 1)`;
allocating its id bumps the counter. -/
def createBullet (s : GameState) : GameState :=
  { s with
    bullets := s.bullets ++
      [{ x := s.player.x, y := s.player.y - 1, character := bulletChar
         id := s.count + 1 }]
    count := s.count + 1 }

/-- `e` is hit when some bullet of `bs` has exactly its coordinates
(`bulletCoordinates.has(getCoordinate(e))` in the source). -/
def bulletHits (bs : List Bullet) (e : Enemy) : Bool :=
  bs.any (fun b => b.x = e.x && b.y = e.y)

/-- `moveBullets`: decrement every bullet's y, drop every enemy whose
coordinates coincide with a moved bullet, then keep only bullets with
`y >= 0`.  The collision set is built from the moved bullets before the
off-board pruning. -/
def moveBullets (s : GameState) : GameState :=
  let moved := s.bullets.map (fun b => { b with y := b.y - 1 })
  { s with
    enemies := s.enemies.filter (fun e => ! bulletHits moved e)
    bullets := moved.filter (fun b => decide (0 ≤ b.y)) }

/-- `Math.max(...l)` over a list, `none` standing for the `-Infinity`
returned on an empty spread. -/
def listMax : List Int → Option Int
  | [] => none
  | a :: l =>
    match listMax l with
    | none => some a
    | some m => some (max a m)

/-- `Math.min(...l)` over a list, `none` standing for the `Infinity`
returned on an empty spread. -/
def listMin : List Int → Option Int
  | [] => none
  | a :: l =>
    match listMin l with
    | none => some a
    | some m => some (min a m)

/-- `Math.max(...this.enemies.map((e) => e.x))`. -/
def rightmostX (enemies : List Enemy) : Option Int :=
  listMax (enemies.map (fun e => e.x))

/-- `Math.min(...this.enemies.map((e) => e.x))`. -/
def leftmostX (enemies : List Enemy) : Option Int :=
  listMin (enemies.map (fun e => e.x))

/-- The directional step: `+1` for `Right`, `-1` for `Left`. -/
def dirVec (d : Direction) : Int :=
  if d = Direction.Right then 1 else -1

/-- The edge test of `moveEnemies`:
`rightmost + v >= width - 1 || leftmost + v <= 0`.
On an empty collection `rightmost = -Infinity` and `leftmost = Infinity`,
so both comparisons are false; `none => false` models exactly that. -/
def willFlip (s : GameState) : Bool :=
  let v := dirVec s.enemyDirection
  (match rightmostX s.enemies with
   | some r => decide (width - 1 ≤ r + v)
   | none => false) ||
  (match leftmostX s.enemies with
   | some l => decide (l + v ≤ 0)
   | none => false)

/-- `moveEnemies`: compute the vector from the stored direction, flip the
stored direction when the edge test fires, then move every enemy by the
vector computed before the flip. -/
def moveEnemies (s : GameState) : GameState :=
  let v := dirVec s.enemyDirection
  { s with
    enemyDirection :=
      if willFlip s then flipDirection s.enemyDirection else s.enemyDirection
    enemies := s.enemies.map (fun e => { e with x := e.x + v }) }

/-- `gameOver`: clear the running flag (the farewell message and
`process.exit(0)` do not touch the game state). -/
def gameOver (s : GameState) : GameState :=
  { s with isGameRunning := false }

/-- Whether a key event takes the quit branch:
`key.name === "q" || (key.ctrl && key.name === "c")`. -/
def isQuitKey (k : Key) : Prop :=
  k.name = KeyName.q ∨ (k.ctrl = true ∧ k.name = KeyName.c)

instance (k : Key) : Decidable (isQuitKey k) := by
  unfold isQuitKey
  infer_instance

/-- The `keypress` handler of `setupInputHandling`. The trailing
`this.render()` reads the state and changes nothing. -/
def handleKey (s : GameState) (k : Key) : GameState :=
  if k.name = KeyName.left ∧ 0 < s.player.x then
    { s with player := { s.player with x := s.player.x - 1 } }
  else if k.name = KeyName.right ∧ s.player.x < width - 1 then
    { s with player := { s.player with x := s.player.x + 1 } }
  else if isQuitKey k then
    gameOver s
  else if k.name = KeyName.space then
    createBullet s
  else
    s

/-- One firing of the `setInterval` callback in `start`: when the game is
no longer running it returns without doing anything (and cancels the
interval); otherwise `moveEnemies` then `moveBullets` then `render`. -/
def tick (s : GameState) : GameState :=
  if s.isGameRunning then moveBullets (moveEnemies s) else s

/-- Whether a firing of the `setInterval` callback reaches `this.render()`:
it does exactly when the running flag was set. -/
def tickRenders (s : GameState) : Bool :=
  s.isGameRunning

/-- States reachable from the constructor's state by any finite
interleaving of timer ticks and key events. -/
inductive Reachable : GameState → Prop where
  | init : Reachable initState
  | key : ∀ {s} (k : Key), Reachable s → Reachable (handleKey s k)
  | tick : ∀ {s}, Reachable s → Reachable (tick s)

/-- A finite sequence of key events applied in order. -/
def applyKeys (s : GameState) (ks : List Key) : GameState :=
  ks.foldl handleKey s

/-! ## The renderer

A character grid is a list of rows.  A JS assignment `g[y][x] = c` becomes
`setCell g y x c`; every claim about the renderer restricts attention to
on-board entities, where `Int.toNat` agrees with the JS (nonnegative)
index. -/

/-- Read cell `(y, x)` of a grid. -/
def getCell (g : List (List Char)) (y x : Nat) : Option Char :=
  match g[y]? with
  | some row => row[x]?
  | none => none

/-- `g[y][x] = c` on a grid of rows. -/
def setCell (g : List (List Char)) (y x : Nat) (c : Char) : List (List Char) :=
  match g[y]? with
  | some row => g.set y (row.set x c)
  | none => g

/-- `board[i][j]` as a total read (all uses are in bounds). -/
def getCellD (board : List (List Char)) (i j : Nat) : Char :=
  (board.getD i []).getD j fullBoardBackground

/-- The grid `g` is rectangular with `h` rows of `w` cells. -/
def Rect (g : List (List Char)) (h w : Nat) : Prop :=
  g.length = h ∧ ∀ row ∈ g, row.length = w

/-- `this.width + 2` inside `createFullBoard`. -/
def fullWidth : Nat := width.toNat + 2

/-- `this.height + 2` inside `createFullBoard`. -/
def fullHeight : Nat := height.toNat + 2

/-- Left/right border character written by `createFullBoard`. -/
def borderVChar : Char := '│'

/-- Top/bottom border character written by `createFullBoard`. -/
def borderHChar : Char := '─'

/-- Top-left corner. -/
def cornerTLChar : Char := '┌'

/-- Top-right corner. -/
def cornerTRChar : Char := '┐'

/-- Bottom-left corner. -/
def cornerBLChar : Char := '└'

/-- Bottom-right corner. -/
def cornerBRChar : Char := '┘'

/-- `createBaseBoard`: a `height × width` grid of the base background. -/
def createBaseBoard : List (List Char) :=
  List.replicate height.toNat (List.replicate width.toNat baseBoardBackground)

/-- `renderEnemies`: write each enemy's character at its position. -/
def renderEnemies (board : List (List Char)) (es : List Enemy) :
    List (List Char) :=
  es.foldl (fun g e => setCell g e.y.toNat e.x.toNat e.character) board

/-- `renderBullets`: write each bullet's character at its position. -/
def renderBullets (board : List (List Char)) (bs : List Bullet) :
    List (List Char) :=
  bs.foldl (fun g b => setCell g b.y.toNat b.x.toNat b.character) board

/-- The first border loop of `createFullBoard`:
`fullBoard[i][0]` and `fullBoard[i][width-1]` for every row `i`. -/
def drawSideBorders (g : List (List Char)) : List (List Char) :=
  (List.range fullHeight).foldl
    (fun f i => setCell (setCell f i 0 borderVChar) i (fullWidth - 1) borderVChar)
    g

/-- The second border loop of `createFullBoard`:
`fullBoard[0][i]` and `fullBoard[height-1][i]` for every column `i`. -/
def drawTopBottomBorders (g : List (List Char)) : List (List Char) :=
  (List.range fullWidth).foldl
    (fun f i => setCell (setCell f 0 i borderHChar) (fullHeight - 1) i borderHChar)
    g

/-- The four corner assignments of `createFullBoard`. -/
def drawCorners (g : List (List Char)) : List (List Char) :=
  setCell
    (setCell
      (setCell (setCell g 0 0 cornerTLChar) 0 (fullWidth - 1) cornerTRChar)
      (fullHeight - 1) 0 cornerBLChar)
    (fullHeight - 1) (fullWidth - 1) cornerBRChar

/-- The final nested loop of `createFullBoard`:
`fullBoard[i+1][j+1] = board[i][j]`. -/
def copyInterior (full board : List (List Char)) : List (List Char) :=
  (List.range height.toNat).foldl
    (fun f i =>
      (List.range width.toNat).foldl
        (fun f2 j => setCell f2 (i + 1) (j + 1) (getCellD board i j))
        f)
    full

/-- `createFullBoard`: a bordered `(height+2) × (width+2)` grid with the
base board copied into the interior. -/
def createFullBoard (board : List (List Char)) : List (List Char) :=
  copyInterior
    (drawCorners (drawTopBottomBorders (drawSideBorders
      (List.replicate fullHeight (List.replicate fullWidth fullBoardBackground)))))
    board

/-- The base board assembled by `render`: background, then enemies, then
bullets, then the player's character last. -/
def baseBoardFor (s : GameState) : List (List Char) :=
  setCell (renderBullets (renderEnemies createBaseBoard s.enemies) s.bullets)
    s.player.y.toNat s.player.x.toNat playerChar

/-- The full grid printed by `render`. -/
def renderGrid (s : GameState) : List (List Char) :=
  createFullBoard (baseBoardFor s)

/-- `render` as a state transition: it reads the entities and produces the
grid, and leaves the game state exactly as it was. -/
def renderRun (s : GameState) : GameState × List (List Char) :=
  (s, renderGrid s)

/-! ## Invariants and concrete test states -/

/-- Per-enemy part of the inductive invariant: on board, and at least one
cell of slack on the side the formation is currently heading to. -/
def EnemyInv (d : Direction) (e : Enemy) : Prop :=
  0 ≤ e.x ∧ e.x < width ∧ 0 ≤ e.y ∧ e.y < height ∧
    (d = Direction.Right → e.x ≤ width - 2) ∧
    (d = Direction.Left → 1 ≤ e.x)

/-- Inductive invariant of the game: player on the bottom row and within
the horizontal bounds, every enemy satisfies `EnemyInv`, every bullet on
board. -/
def StateInv (s : GameState) : Prop :=
  0 ≤ s.player.x ∧ s.player.x < width ∧ s.player.y = height - 1 ∧
    (∀ e ∈ s.enemies, EnemyInv s.enemyDirection e) ∧
    (∀ b ∈ s.bullets, 0 ≤ b.x ∧ b.x < width ∧ 0 ≤ b.y ∧ b.y < height)

instance (s : GameState) : Decidable (StateInv s) := by
  unfold StateInv EnemyInv
  infer_instance

/-- Default element for `List.getD` on enemy lists. -/
def defaultEnemy : Enemy :=
  { x := 0, y := 0, character := enemyChar, id := 0 }

/-- One enemy at `(5,5)` and one bullet at `(5,6)`: after the move the
bullet sits exactly on the enemy. -/
def collisionState : GameState :=
  { player := { x := 20, y := 19 }
    isGameRunning := true
    enemies := [{ x := 5, y := 5, character := enemyChar, id := 1 }]
    enemyDirection := Direction.Right
    bullets := [{ x := 5, y := 6, character := bulletChar, id := 2 }]
    count := 2 }

/-- One enemy at `(5,6)` and one bullet at `(5,6)`: the bullet moves off
the enemy's cell to `(5,5)` this tick. -/
def passThroughState : GameState :=
  { collisionState with
    enemies := [{ x := 5, y := 6, character := enemyChar, id := 1 }] }

/-- A single enemy at `x = width - 2` with the formation heading `Right`. -/
def edgeState : GameState :=
  { collisionState with
    enemies := [{ x := 38, y := 5, character := enemyChar, id := 1 }]
    bullets := [] }

/-- The initial state with every enemy already destroyed. -/
def emptyEnemiesState : GameState :=
  { initState with enemies := [] }

/-! ## Basic facts about the spread min/max -/

theorem listMax_eq_none {l : List Int} : listMax l = none ↔ l = [] := by
  cases l with
  | nil => simp [listMax]
  | cons a l =>
    simp only [listMax]
    cases listMax l <;> simp

theorem listMin_eq_none {l : List Int} : listMin l = none ↔ l = [] := by
  cases l with
  | nil => simp [listMin]
  | cons a l =>
    simp only [listMin]
    cases listMin l <;> simp

theorem le_listMax {l : List Int} {a m : Int} (ha : a ∈ l)
    (hm : listMax l = some m) : a ≤ m := by
  induction l generalizing m with
  | nil => cases ha
  | cons b l ih =>
    simp only [listMax] at hm
    cases hl : listMax l with
    | none =>
      rw [hl] at hm
      have : l = [] := listMax_eq_none.mp hl
      subst this
      simp at ha
      simp at hm
      omega
    | some m' =>
      rw [hl] at hm
      cases List.mem_cons.mp ha with
      | inl h => rw [h]; simp at hm; omega
      | inr h =>
        have := ih h hl
        simp at hm
        omega

theorem listMin_le {l : List Int} {a m : Int} (ha : a ∈ l)
    (hm : listMin l = some m) : m ≤ a := by
  induction l generalizing m with
  | nil => cases ha
  | cons b l ih =>
    simp only [listMin] at hm
    cases hl : listMin l with
    | none =>
      rw [hl] at hm
      have : l = [] := listMin_eq_none.mp hl
      subst this
      simp at ha
      simp at hm
      omega
    | some m' =>
      rw [hl] at hm
      cases List.mem_cons.mp ha with
      | inl h => rw [h]; simp at hm; omega
      | inr h =>
        have := ih h hl
        simp at hm
        omega

theorem rightmostX_le {es : List Enemy} {e : Enemy} {m : Int} (he : e ∈ es)
    (hm : rightmostX es = some m) : e.x ≤ m := by
  unfold rightmostX at hm
  exact le_listMax (List.mem_map_of_mem (fun e => e.x) he) hm

theorem leftmostX_le {es : List Enemy} {e : Enemy} {m : Int} (he : e ∈ es)
    (hm : leftmostX es = some m) : m ≤ e.x := by
  unfold leftmostX at hm
  exact listMin_le (List.mem_map_of_mem (fun e => e.x) he) hm

theorem rightmostX_isSome {es : List Enemy} {e : Enemy} (he : e ∈ es) :
    ∃ m, rightmostX es = some m := by
  cases hm : rightmostX es with
  | none =>
    have : es.map (fun e => e.x) = [] := listMax_eq_none.mp hm
    simp at this
    subst this
    cases he
  | some m => exact ⟨m, rfl⟩

theorem leftmostX_isSome {es : List Enemy} {e : Enemy} (he : e ∈ es) :
    ∃ m, leftmostX es = some m := by
  cases hm : leftmostX es with
  | none =>
    have : es.map (fun e => e.x) = [] := listMin_eq_none.mp hm
    simp at this
    subst this
    cases he
  | some m => exact ⟨m, rfl⟩

/-! ## Claim theorems: movement and collision -/

/-- C5: with an empty enemy collection, `moveEnemies` is a complete no-op:
`Math.max`/`Math.min` of an empty spread are `-Infinity`/`Infinity`, both
edge comparisons are false, so the direction is not flipped, and moving
each of zero enemies changes nothing. -/
theorem moveEnemies_empty_noop (s : GameState) (h : s.enemies = []) :
    moveEnemies s = s := by
  cases s with
  | mk player running enemies dir bullets cnt =>
    simp only at h
    subst h
    simp [moveEnemies, willFlip, rightmostX, leftmostX, listMax, listMin]

theorem moveEnemies_empty_noop_witness :
    moveEnemies emptyEnemiesState = emptyEnemiesState :=
  moveEnemies_empty_noop emptyEnemiesState rfl

/-- C1 counterexample: one enemy at `(5,5)`, one bullet that moves onto it
this tick.  `moveBullets` removes the enemy, but the bullet — whose
post-move `y = 5` is still `≥ 0` — stays in the bullet collection: the
filter at the end of `moveBullets` tests only `b.y >= 0`, never whether
the bullet hit something. -/
theorem collision_keeps_bullet_counterexample :
    (moveBullets collisionState).enemies = [] ∧
    (moveBullets collisionState).bullets
      = [{ x := 5, y := 5, character := bulletChar, id := 2 }] := by
  decide

/-- C1 amended: when a projectile's post-move position coincides with an
enemy's position, `moveBullets` removes the enemy that tick; the
projectile itself is removed only by the `y >= 0` filter, so whenever its
post-move `y` is still nonnegative the moved projectile stays in the
bullet collection. -/
theorem collision_removes_enemy_keeps_bullet (s : GameState) (e : Enemy)
    (b : Bullet) (_he : e ∈ s.enemies) (hb : b ∈ s.bullets) (hx : b.x = e.x)
    (hy : b.y - 1 = e.y) :
    e ∉ (moveBullets s).enemies ∧
    (0 ≤ b.y - 1 → { b with y := b.y - 1 } ∈ (moveBullets s).bullets) := by
  constructor
  · intro hmem
    have hfilter := (List.mem_filter.mp hmem).2
    have hhit : bulletHits (s.bullets.map (fun b => { b with y := b.y - 1 })) e
        = true := by
      apply List.any_eq_true.mpr
      refine ⟨{ b with y := b.y - 1 }, List.mem_map_of_mem _ hb, ?_⟩
      simp [hx, hy]
    simp [moveBullets] at hfilter
    simp [hfilter] at hhit
  · intro hge
    apply List.mem_filter.mpr
    constructor
    · exact List.mem_map_of_mem _ hb
    · simpa using hge

theorem collision_removes_enemy_keeps_bullet_witness :
    ({ x := 5, y := 5, character := enemyChar, id := 1 } : Enemy)
        ∉ (moveBullets collisionState).enemies ∧
    ({ x := 5, y := 5, character := bulletChar, id := 2 } : Bullet)
        ∈ (moveBullets collisionState).bullets := by
  have h := collision_removes_enemy_keeps_bullet collisionState
    { x := 5, y := 5, character := enemyChar, id := 1 }
    { x := 5, y := 6, character := bulletChar, id := 2 }
    (by decide) (by decide) (by decide) (by decide)
  exact ⟨h.1, h.2 (by decide)⟩

/-- C2 counterexample: the single bullet moves from `(5,6)` to `(5,5)` and
the enemy sits at `(5,6)` — the bullet's pre-move cell.  The claim says
that enemy is removed; in fact `moveBullets` leaves it untouched, because
the collision set holds only post-move coordinates. -/
theorem premove_cell_not_hit_counterexample :
    (moveBullets passThroughState).enemies
      = [{ x := 5, y := 6, character := enemyChar, id := 1 }] := by
  decide

/-- C2 amended: when a projectile moves from `(x,y+1)` to `(x,y)`, the
enemy removed in that tick is the one at the post-move cell `(x,y)`, not
the one at the pre-move cell `(x,y+1)`. -/
theorem postmove_cell_determines_hit (s : GameState) (x y : Int) (e : Enemy)
    (hb : ∃ b ∈ s.bullets, b.x = x ∧ b.y = y + 1) (_he : e ∈ s.enemies)
    (hex : e.x = x) (hey : e.y = y) :
    e ∉ (moveBullets s).enemies := by
  intro hmem
  obtain ⟨b, hbmem, hbx, hby⟩ := hb
  have hfilter := (List.mem_filter.mp hmem).2
  have hhit : bulletHits (s.bullets.map (fun b => { b with y := b.y - 1 })) e
      = true := by
    apply List.any_eq_true.mpr
    refine ⟨{ b with y := b.y - 1 }, List.mem_map_of_mem _ hbmem, ?_⟩
    simp [hbx, hby, hex, hey]
  simp [moveBullets] at hfilter
  simp [hfilter] at hhit

theorem postmove_cell_determines_hit_witness :
    ({ x := 5, y := 5, character := enemyChar, id := 1 } : Enemy)
      ∉ (moveBullets collisionState).enemies :=
  postmove_cell_determines_hit collisionState 5 5
    { x := 5, y := 5, character := enemyChar, id := 1 }
    ⟨{ x := 5, y := 6, character := bulletChar, id := 2 }, by decide, by decide,
      by decide⟩
    (by decide) (by decide) (by decide)

/-- C3: when the rightmost enemy is at `width - 2` and the stored
direction is `Right`, one `moveEnemies` call flips the stored direction to
`Left` yet still moves every enemy one cell to the right, because the
displacement was computed before the flip test; and in general, whenever
the step would put the rightmost enemy at `≥ width - 1` or the leftmost at
`≤ 0`, the stored direction is flipped before the uniform move is applied,
the move itself still using the pre-flip vector. -/
theorem moveEnemies_flip_before_move (s : GameState) (R L : Int) :
    (rightmostX s.enemies = some R → s.enemyDirection = Direction.Right →
      R = width - 2 →
      (moveEnemies s).enemyDirection = Direction.Left ∧
      (moveEnemies s).enemies
        = s.enemies.map (fun e => { e with x := e.x + 1 })) ∧
    (rightmostX s.enemies = some R → leftmostX s.enemies = some L →
      (width - 1 ≤ R + dirVec s.enemyDirection ∨
        L + dirVec s.enemyDirection ≤ 0) →
      (moveEnemies s).enemyDirection = flipDirection s.enemyDirection ∧
      (moveEnemies s).enemies
        = s.enemies.map (fun e => { e with x := e.x + dirVec s.enemyDirection })) := by
  constructor
  · intro hR hdir hedge
    have hflip : willFlip s = true := by
      simp only [willFlip, hR, hdir, dirVec]
      simp [hedge, width]
    constructor
    · simp [moveEnemies, hflip, hdir, flipDirection]
    · simp [moveEnemies, hdir, dirVec]
  · intro hR hL hedge
    have hflip : willFlip s = true := by
      simp only [willFlip, hR, hL]
      rcases hedge with h | h
      · simp [h]
      · simp [h]
    constructor
    · simp [moveEnemies, hflip]
    · simp [moveEnemies]

theorem moveEnemies_flip_before_move_witness :
    (moveEnemies edgeState).enemyDirection = Direction.Left ∧
    (moveEnemies edgeState).enemies
      = edgeState.enemies.map (fun e => { e with x := e.x + 1 }) :=
  (moveEnemies_flip_before_move edgeState 38 38).1 (by decide) rfl (by decide)

/-- C9: the running flag changes only on the quit branch
(`'q'` or Ctrl+`'c'`), a quit event always clears it, nothing ever sets it
back, and a tick that observes a cleared flag leaves the whole state
untouched and performs no rendering (the interval callback returns before
any movement, collision, or render). -/
theorem quit_transition_one_way :
    (∀ (s : GameState) (k : Key), ¬ isQuitKey k →
      (handleKey s k).isGameRunning = s.isGameRunning) ∧
    (∀ (s : GameState) (k : Key), isQuitKey k →
      (handleKey s k).isGameRunning = false) ∧
    (∀ (s : GameState) (k : Key), s.isGameRunning = false →
      (handleKey s k).isGameRunning = false) ∧
    (∀ s : GameState, s.isGameRunning = false →
      tick s = s ∧ tickRenders s = false) ∧
    (∀ s : GameState, (tick s).isGameRunning = s.isGameRunning) := by
  refine ⟨?_, ?_, ?_, ?_, ?_⟩
  · intro s k hk
    unfold handleKey
    split_ifs with h1 h2 h3
    · rfl
    · rfl
    · rfl
    · rfl
  · intro s k hk
    unfold handleKey
    split_ifs with h1 h2
    · simp [isQuitKey, h1.1] at hk
    · simp [isQuitKey, h2.1] at hk
    · rfl
  · intro s k hk
    unfold handleKey
    split_ifs with h1 h2 h3 h4
    · exact hk
    · exact hk
    · rfl
    · exact hk
    · exact hk
  · intro s hs
    simp [tick, tickRenders, hs]
  · intro s
    by_cases hs : s.isGameRunning <;>
      simp [tick, tickRenders, hs, moveBullets, moveEnemies]

theorem quit_transition_one_way_witness :
    (handleKey initState { name := KeyName.q, ctrl := false }).isGameRunning
      = false :=
  quit_transition_one_way.2.1 initState { name := KeyName.q, ctrl := false }
    (Or.inl rfl)

/-! ## Player movement bounds -/

theorem handleKey_player_x_bounds (s : GameState) (k : Key)
    (h0 : 0 ≤ s.player.x) (h1 : s.player.x ≤ width - 1) :
    0 ≤ (handleKey s k).player.x ∧ (handleKey s k).player.x ≤ width - 1 := by
  unfold handleKey
  split_ifs with hl hr hq hs
  · obtain ⟨-, hx⟩ := hl
    constructor <;> simp <;> omega
  · obtain ⟨-, hx⟩ := hr
    constructor <;> simp <;> omega
  · exact ⟨h0, h1⟩
  · exact ⟨h0, h1⟩
  · exact ⟨h0, h1⟩

theorem applyKeys_player_x_bounds (ks : List Key) (s : GameState)
    (h0 : 0 ≤ s.player.x) (h1 : s.player.x ≤ width - 1) :
    0 ≤ (applyKeys s ks).player.x ∧ (applyKeys s ks).player.x ≤ width - 1 := by
  induction ks generalizing s with
  | nil => exact ⟨h0, h1⟩
  | cons k ks ih =>
    have h := handleKey_player_x_bounds s k h0 h1
    exact ih (handleKey s k) h.1 h.2

/-- C6: a left-arrow event decrements `player.x` exactly when
`player.x > 0`, a right-arrow event increments it exactly when
`player.x < width - 1`, and hence no finite sequence of key events applied
to the initial state drives `player.x` out of `[0, width - 1]`. -/
theorem player_x_clamped :
    (∀ ks : List Key, 0 ≤ (applyKeys initState ks).player.x ∧
      (applyKeys initState ks).player.x ≤ width - 1) ∧
    (∀ (s : GameState) (c : Bool),
      (handleKey s { name := KeyName.left, ctrl := c }).player.x
        = if 0 < s.player.x then s.player.x - 1 else s.player.x) ∧
    (∀ (s : GameState) (c : Bool),
      (handleKey s { name := KeyName.right, ctrl := c }).player.x
        = if s.player.x < width - 1 then s.player.x + 1 else s.player.x) := by
  refine ⟨?_, ?_, ?_⟩
  · intro ks
    exact applyKeys_player_x_bounds ks initState (by decide) (by decide)
  · intro s c
    unfold handleKey
    by_cases h : 0 < s.player.x <;> simp [h, isQuitKey, createBullet]
  · intro s c
    unfold handleKey
    by_cases h : s.player.x < width - 1 <;> simp [h, isQuitKey, createBullet]

/-! ## Uniform formation movement -/

theorem getD_map_shift :
    ∀ (es : List Enemy) (v : Int) (i : Nat), i < es.length →
      (es.map (fun e => { e with x := e.x + v })).getD i defaultEnemy
        = { es.getD i defaultEnemy with x := (es.getD i defaultEnemy).x + v }
  | [], _, i, h => by cases h
  | e :: es, v, 0, _ => rfl
  | e :: es, v, i + 1, h => getD_map_shift es v i (Nat.lt_of_succ_lt_succ h)

/-- C7: `moveEnemies` shifts every enemy's `x` by the single signed step
`dirVec` (+1 or -1), so all pairwise x-offsets are unchanged; each enemy's
`y`, `id` and display character, the player, and the bullet collection are
untouched. -/
theorem moveEnemies_uniform_shift (s : GameState) :
    (dirVec s.enemyDirection = 1 ∨ dirVec s.enemyDirection = -1) ∧
    (moveEnemies s).enemies
      = s.enemies.map (fun e => { e with x := e.x + dirVec s.enemyDirection }) ∧
    (moveEnemies s).player = s.player ∧
    (moveEnemies s).bullets = s.bullets ∧
    (moveEnemies s).enemies.length = s.enemies.length ∧
    (∀ i j : Nat, i < s.enemies.length → j < s.enemies.length →
      ((moveEnemies s).enemies.getD i defaultEnemy).x
          - ((moveEnemies s).enemies.getD j defaultEnemy).x
        = (s.enemies.getD i defaultEnemy).x
          - (s.enemies.getD j defaultEnemy).x ∧
      ((moveEnemies s).enemies.getD i defaultEnemy).y
        = (s.enemies.getD i defaultEnemy).y ∧
      ((moveEnemies s).enemies.getD i defaultEnemy).id
        = (s.enemies.getD i defaultEnemy).id ∧
      ((moveEnemies s).enemies.getD i defaultEnemy).character
        = (s.enemies.getD i defaultEnemy).character) := by
  refine ⟨?_, rfl, rfl, rfl, by simp [moveEnemies], ?_⟩
  · unfold dirVec
    split_ifs <;> simp
  · intro i j hi hj
    have hmi := getD_map_shift s.enemies (dirVec s.enemyDirection) i hi
    have hmj := getD_map_shift s.enemies (dirVec s.enemyDirection) j hj
    have hme : (moveEnemies s).enemies
        = s.enemies.map (fun e => { e with x := e.x + dirVec s.enemyDirection }) :=
      rfl
    rw [hme, hmi, hmj]
    exact ⟨by ring, rfl, rfl, rfl⟩

theorem moveEnemies_uniform_shift_witness :
    ((moveEnemies initState).enemies.getD 0 defaultEnemy).x
        - ((moveEnemies initState).enemies.getD 1 defaultEnemy).x
      = (initState.enemies.getD 0 defaultEnemy).x
        - (initState.enemies.getD 1 defaultEnemy).x :=
  ((moveEnemies_uniform_shift initState).2.2.2.2.2 0 1 (by decide) (by decide)).1

/-! ## The fixed player row -/

theorem handleKey_player_y (s : GameState) (k : Key) :
    (handleKey s k).player.y = s.player.y := by
  unfold handleKey
  split_ifs <;> rfl

theorem tick_player_y (s : GameState) : (tick s).player.y = s.player.y := by
  unfold tick
  split_ifs <;> rfl

/-- C10: the player starts on the bottom row `height - 1`, no key event or
tick ever changes `player.y` (and the pure renderer cannot), so every fire
command appends its bullet at `y = height - 2`, which is on the board. -/
theorem player_y_constant :
    initState.player.y = height - 1 ∧
    (∀ (s : GameState) (k : Key), (handleKey s k).player.y = s.player.y) ∧
    (∀ s : GameState, (tick s).player.y = s.player.y) ∧
    (∀ s : GameState, Reachable s → s.player.y = height - 1) ∧
    (∀ s : GameState, s.player.y = height - 1 →
      ∀ b ∈ (createBullet s).bullets,
        b ∈ s.bullets ∨ (b.y = height - 2 ∧ 0 ≤ b.y ∧ b.y < height)) := by
  refine ⟨rfl, handleKey_player_y, tick_player_y, ?_, ?_⟩
  · intro s h
    induction h with
    | init => rfl
    | key k hr ih => rw [handleKey_player_y]; exact ih
    | tick hr ih => rw [tick_player_y]; exact ih
  · intro s hy b hb
    have hmem : b ∈ s.bullets ∨
        b = { x := s.player.x, y := s.player.y - 1, character := bulletChar
              id := s.count + 1 } := by
      simpa [createBullet] using hb
    cases hmem with
    | inl h => exact Or.inl h
    | inr h =>
      subst h
      have hh : height = 20 := rfl
      exact Or.inr
        ⟨by dsimp only; omega, by dsimp only; omega, by dsimp only; omega⟩

theorem player_y_constant_witness : initState.player.y = height - 1 :=
  player_y_constant.2.2.2.1 initState Reachable.init

/-! ## The inductive on-board invariant -/

theorem stateInv_init : StateInv initState := by decide

theorem stateInv_moveEnemies (s : GameState) (h : StateInv s) :
    StateInv (moveEnemies s) := by
  obtain ⟨hpx0, hpx1, hpy, hes, hbs⟩ := h
  refine ⟨hpx0, hpx1, hpy, ?_, hbs⟩
  intro e' he'
  have hme : (moveEnemies s).enemies
      = s.enemies.map (fun e => { e with x := e.x + dirVec s.enemyDirection }) :=
    rfl
  rw [hme] at he'
  obtain ⟨e, he, rfl⟩ := List.mem_map.mp he'
  obtain ⟨hx0, hx1, hy0, hy1, hR, hL⟩ := hes e he
  have hv1 : dirVec Direction.Right = 1 := rfl
  have hv2 : dirVec Direction.Left = -1 := rfl
  have hw2 : width = 40 := rfl
  by_cases hf : willFlip s = true
  · have hd : (moveEnemies s).enemyDirection = flipDirection s.enemyDirection := by
      simp [moveEnemies, hf]
    rw [hd]
    cases hdir : s.enemyDirection with
    | Right =>
      have hx38 := hR hdir
      refine ⟨?_, ?_, hy0, hy1, ?_, ?_⟩
      · dsimp only
        omega
      · dsimp only
        omega
      · intro hc
        simp [flipDirection] at hc
      · intro hc
        dsimp only
        omega
    | Left =>
      have hx1' := hL hdir
      refine ⟨?_, ?_, hy0, hy1, ?_, ?_⟩
      · dsimp only
        omega
      · dsimp only
        omega
      · intro hc
        dsimp only
        omega
      · intro hc
        simp [flipDirection] at hc
  · have hf' : willFlip s = false := by simpa using hf
    have hd : (moveEnemies s).enemyDirection = s.enemyDirection := by
      simp [moveEnemies, hf']
    rw [hd]
    obtain ⟨M, hM⟩ := rightmostX_isSome he
    obtain ⟨L, hLm⟩ := leftmostX_isSome he
    have hxM := rightmostX_le he hM
    have hxL := leftmostX_le he hLm
    have hw := hf'
    unfold willFlip at hw
    rw [hM, hLm] at hw
    simp only [Bool.or_eq_false_iff, decide_eq_false_iff_not] at hw
    obtain ⟨hwR, hwL⟩ := hw
    cases hdir : s.enemyDirection with
    | Right =>
      rw [hdir] at hwR
      refine ⟨?_, ?_, hy0, hy1, ?_, ?_⟩
      · dsimp only
        omega
      · dsimp only
        omega
      · intro hc
        dsimp only
        omega
      · intro hc
        simp at hc
    | Left =>
      rw [hdir] at hwL
      refine ⟨?_, ?_, hy0, hy1, ?_, ?_⟩
      · dsimp only
        omega
      · dsimp only
        omega
      · intro hc
        simp at hc
      · intro hc
        dsimp only
        omega

theorem stateInv_moveBullets (s : GameState) (h : StateInv s) :
    StateInv (moveBullets s) := by
  obtain ⟨hpx0, hpx1, hpy, hes, hbs⟩ := h
  refine ⟨hpx0, hpx1, hpy, ?_, ?_⟩
  · intro e he
    have he' : e ∈ s.enemies := List.mem_of_mem_filter he
    exact hes e he'
  · intro b hb
    have hb1 := List.mem_filter.mp hb
    obtain ⟨b0, hb0, rfl⟩ := List.mem_map.mp hb1.1
    obtain ⟨hbx0, hbx1, hby0, hby1⟩ := hbs b0 hb0
    have hge : (0 : Int) ≤ b0.y - 1 := by simpa using hb1.2
    exact ⟨hbx0, hbx1, hge, by dsimp only; omega⟩

theorem stateInv_handleKey (s : GameState) (k : Key) (h : StateInv s) :
    StateInv (handleKey s k) := by
  obtain ⟨hpx0, hpx1, hpy, hes, hbs⟩ := h
  unfold handleKey
  split_ifs with h1 h2 h3 h4
  · obtain ⟨-, hx⟩ := h1
    exact ⟨by dsimp only; omega, by dsimp only; omega, hpy, hes, hbs⟩
  · obtain ⟨-, hx⟩ := h2
    exact ⟨by dsimp only; omega, by dsimp only; omega, hpy, hes, hbs⟩
  · exact ⟨hpx0, hpx1, hpy, hes, hbs⟩
  · refine ⟨hpx0, hpx1, hpy, hes, ?_⟩
    intro b hb
    have hmem : b ∈ s.bullets ∨
        b = { x := s.player.x, y := s.player.y - 1, character := bulletChar
              id := s.count + 1 } := by
      simpa [createBullet] using hb
    cases hmem with
    | inl hmem' => exact hbs b hmem'
    | inr hmem' =>
      subst hmem'
      have hh : height = 20 := rfl
      exact ⟨hpx0, hpx1, by dsimp only; omega, by dsimp only; omega⟩
  · exact ⟨hpx0, hpx1, hpy, hes, hbs⟩

theorem stateInv_tick (s : GameState) (h : StateInv s) : StateInv (tick s) := by
  unfold tick
  split_ifs with hr
  · exact stateInv_moveBullets _ (stateInv_moveEnemies _ h)
  · exact h

theorem stateInv_reachable (s : GameState) (h : Reachable s) : StateInv s := by
  induction h with
  | init => exact stateInv_init
  | key k hr ih => exact stateInv_handleKey _ k ih
  | tick hr ih => exact stateInv_tick _ ih

/-- C4: in every state reachable from the initial state by ticks
(`moveEnemies` then `moveBullets`) and key events, the player, every
enemy, and every bullet lie within `0 ≤ x < width` and `0 ≤ y < height`;
in particular every bullet present between operations has `y ≥ 0`
(a bullet whose `y` falls below 0 during a tick is pruned before the tick
ends), so no bullet with negative `y` is ever handed to the renderer. -/
theorem reachable_entities_on_board (s : GameState) (h : Reachable s) :
    (0 ≤ s.player.x ∧ s.player.x < width ∧
      0 ≤ s.player.y ∧ s.player.y < height) ∧
    (∀ e ∈ s.enemies, 0 ≤ e.x ∧ e.x < width ∧ 0 ≤ e.y ∧ e.y < height) ∧
    (∀ b ∈ s.bullets, 0 ≤ b.x ∧ b.x < width ∧ 0 ≤ b.y ∧ b.y < height) := by
  obtain ⟨hpx0, hpx1, hpy, hes, hbs⟩ := stateInv_reachable s h
  have hh : height = 20 := rfl
  refine ⟨⟨hpx0, hpx1, by omega, by omega⟩, ?_, hbs⟩
  intro e he
  obtain ⟨hx0, hx1, hy0, hy1, -, -⟩ := hes e he
  exact ⟨hx0, hx1, hy0, hy1⟩

theorem reachable_entities_on_board_witness :
    0 ≤ initState.player.x ∧ initState.player.x < width ∧
      0 ≤ initState.player.y ∧ initState.player.y < height :=
  (reachable_entities_on_board initState Reachable.init).1

/-! ## Grid lemmas -/

theorem rect_setCell {g : List (List Char)} {h w : Nat} (hrect : Rect g h w)
    (y x : Nat) (c : Char) : Rect (setCell g y x c) h w := by
  obtain ⟨hlen, hrows⟩ := hrect
  unfold setCell
  cases hrow : g[y]? with
  | none => exact ⟨hlen, hrows⟩
  | some row =>
    refine ⟨by simp [hlen], ?_⟩
    intro r hr
    cases List.mem_or_eq_of_mem_set hr with
    | inl hmem => exact hrows r hmem
    | inr heq =>
      subst heq
      simp [hrows row (List.getElem?_mem hrow)]

theorem getCell_eq (g : List (List Char)) (i j : Nat) :
    getCell g i j = (g[i]?).bind (fun row => row[j]?) := by
  unfold getCell
  cases g[i]? <;> rfl

theorem getCell_setCell {g : List (List Char)} {h w : Nat} (hrect : Rect g h w)
    {y x : Nat} (hy : y < h) (hx : x < w) (c : Char) (i j : Nat) :
    getCell (setCell g y x c) i j
      = if i = y ∧ j = x then some c else getCell g i j := by
  obtain ⟨hlen, hrows⟩ := hrect
  have hy' : y < g.length := by omega
  have hrow : g[y]? = some g[y] := List.getElem?_eq_getElem hy'
  have hrlen : g[y].length = w := hrows _ (List.getElem?_mem hrow)
  unfold setCell
  rw [hrow]
  by_cases hiy : i = y
  · subst hiy
    rw [getCell_eq, List.getElem?_set_self hy']
    by_cases hjx : j = x
    · subst hjx
      simp only [Option.some_bind]
      rw [List.getElem?_set_self (show j < g[i].length by omega)]
      simp
    · simp only [Option.some_bind]
      rw [List.getElem?_set_ne (by omega)]
      simp [hjx, getCell_eq, hrow]
  · rw [getCell_eq, List.getElem?_set_ne (by omega), ← getCell_eq]
    simp [hiy]

theorem rect_replicate (h w : Nat) (c : Char) :
    Rect (List.replicate h (List.replicate w c)) h w := by
  refine ⟨by simp, ?_⟩
  intro r hr
  rw [List.eq_of_mem_replicate hr]
  simp

theorem getCell_replicate {h w : Nat} (c : Char) {i j : Nat} (hi : i < h)
    (hj : j < w) :
    getCell (List.replicate h (List.replicate w c)) i j = some c := by
  unfold getCell
  rw [List.getElem?_replicate]
  simp [hi, hj, List.getElem?_replicate]

theorem getCell_eq_getCellD {g : List (List Char)} {h w : Nat}
    (hrect : Rect g h w) {i j : Nat} (hi : i < h) (hj : j < w) :
    getCell g i j = some (getCellD g i j) := by
  obtain ⟨hlen, hrows⟩ := hrect
  have hi' : i < g.length := by omega
  have hrow : g[i]? = some g[i] := List.getElem?_eq_getElem hi'
  have hrlen : g[i].length = w := hrows _ (List.getElem?_mem hrow)
  rw [getCell_eq, hrow]
  simp only [Option.some_bind]
  unfold getCellD
  have hgd : g.getD i [] = g[i] := by
    simp [List.getD_eq_getElem?_getD, hrow]
  rw [hgd]
  rw [List.getElem?_eq_getElem (show j < g[i].length by omega)]
  simp [List.getD_eq_getElem?_getD,
    List.getElem?_eq_getElem (show j < g[i].length by omega)]

section WriteFold

variable {α : Type}

theorem rect_writeFold {H W : Nat} (st : List (List Char) → α → List (List Char))
    (Q : α → Prop)
    (hstep : ∀ g a, Q a → Rect g H W → Rect (st g a) H W)
    (idxs : List α) (hQ : ∀ a ∈ idxs, Q a) (g : List (List Char))
    (hrect : Rect g H W) : Rect (idxs.foldl st g) H W := by
  induction idxs generalizing g with
  | nil => exact hrect
  | cons a idxs ih =>
    exact ih (fun b hb => hQ b (List.mem_cons_of_mem a hb)) (st g a)
      (hstep g a (hQ a (List.mem_cons_self a idxs)) hrect)

theorem getCell_writeFold {H W : Nat}
    (st : List (List Char) → α → List (List Char)) (Q : α → Prop)
    (P : α → Nat → Nat → Prop) [∀ a y x, Decidable (P a y x)]
    (chr : Nat → Nat → Char)
    (hrectstep : ∀ g a, Q a → Rect g H W → Rect (st g a) H W)
    (hstep : ∀ g a, Q a → Rect g H W → ∀ y x, y < H → x < W →
      getCell (st g a) y x = if P a y x then some (chr y x) else getCell g y x)
    (idxs : List α) (hQ : ∀ a ∈ idxs, Q a) (g : List (List Char))
    (hrect : Rect g H W) (y x : Nat) (hy : y < H) (hx : x < W) :
    getCell (idxs.foldl st g) y x
      = if ∃ a ∈ idxs, P a y x then some (chr y x) else getCell g y x := by
  induction idxs generalizing g with
  | nil => simp
  | cons a idxs ih =>
    have hQa := hQ a (List.mem_cons_self a idxs)
    have hrest := ih (fun b hb => hQ b (List.mem_cons_of_mem a hb)) (st g a)
      (hrectstep g a hQa hrect)
    rw [List.foldl_cons, hrest, hstep g a hQa hrect y x hy hx]
    by_cases h1 : ∃ b ∈ idxs, P b y x
    · simp [h1]
    · by_cases h2 : P a y x
      · simp [h1, h2]
      · simp [h1, h2]

end WriteFold

/-! ## The bordered full board -/

theorem rect_drawSideBorders {g : List (List Char)}
    (hrect : Rect g fullHeight fullWidth) :
    Rect (drawSideBorders g) fullHeight fullWidth := by
  unfold drawSideBorders
  exact rect_writeFold _ (fun _ => True)
    (fun f i _ hr => rect_setCell (rect_setCell hr i 0 borderVChar) i
      (fullWidth - 1) borderVChar)
    (List.range fullHeight) (fun _ _ => trivial) g hrect

theorem getCell_drawSideBorders {g : List (List Char)}
    (hrect : Rect g fullHeight fullWidth) {y x : Nat} (hy : y < fullHeight)
    (hx : x < fullWidth) :
    getCell (drawSideBorders g) y x
      = if x = 0 ∨ x = fullWidth - 1 then some borderVChar
        else getCell g y x := by
  have hW : fullWidth = 42 := rfl
  have hmain : getCell (drawSideBorders g) y x
      = if ∃ i ∈ List.range fullHeight, y = i ∧ (x = 0 ∨ x = fullWidth - 1)
        then some borderVChar else getCell g y x := by
    unfold drawSideBorders
    refine getCell_writeFold _ (fun i => i < fullHeight)
      (fun i y x => y = i ∧ (x = 0 ∨ x = fullWidth - 1))
      (fun _ _ => borderVChar)
      (fun f i _ hr => rect_setCell (rect_setCell hr i 0 borderVChar) i
        (fullWidth - 1) borderVChar)
      ?_ (List.range fullHeight) (by simp) g hrect y x hy hx
    intro f i hiH hr y' x' hy' hx'
    have hr1 := rect_setCell hr i 0 borderVChar
    rw [getCell_setCell hr1 hiH (by omega) borderVChar,
      getCell_setCell hr hiH (by omega) borderVChar]
    by_cases h1 : y' = i
    · by_cases h2 : x' = 0
      · simp [h1, h2]
      · by_cases h3 : x' = fullWidth - 1 <;> simp [h1, h2, h3]
    · simp [h1]
  rw [hmain]
  by_cases hedge : x = 0 ∨ x = fullWidth - 1
  · simp only [if_pos hedge]
    rw [if_pos ⟨y, List.mem_range.mpr hy, rfl, hedge⟩]
  · simp only [if_neg hedge]
    rw [if_neg]
    rintro ⟨i, -, -, hc⟩
    exact hedge hc

theorem rect_drawTopBottomBorders {g : List (List Char)}
    (hrect : Rect g fullHeight fullWidth) :
    Rect (drawTopBottomBorders g) fullHeight fullWidth := by
  unfold drawTopBottomBorders
  exact rect_writeFold _ (fun _ => True)
    (fun f i _ hr => rect_setCell (rect_setCell hr 0 i borderHChar)
      (fullHeight - 1) i borderHChar)
    (List.range fullWidth) (fun _ _ => trivial) g hrect

theorem getCell_drawTopBottomBorders {g : List (List Char)}
    (hrect : Rect g fullHeight fullWidth) {y x : Nat} (hy : y < fullHeight)
    (hx : x < fullWidth) :
    getCell (drawTopBottomBorders g) y x
      = if y = 0 ∨ y = fullHeight - 1 then some borderHChar
        else getCell g y x := by
  have hH : fullHeight = 22 := rfl
  have hmain : getCell (drawTopBottomBorders g) y x
      = if ∃ i ∈ List.range fullWidth, x = i ∧ (y = 0 ∨ y = fullHeight - 1)
        then some borderHChar else getCell g y x := by
    unfold drawTopBottomBorders
    refine getCell_writeFold _ (fun i => i < fullWidth)
      (fun i y x => x = i ∧ (y = 0 ∨ y = fullHeight - 1))
      (fun _ _ => borderHChar)
      (fun f i _ hr => rect_setCell (rect_setCell hr 0 i borderHChar)
        (fullHeight - 1) i borderHChar)
      ?_ (List.range fullWidth) (by simp) g hrect y x hy hx
    intro f i hiW hr y' x' hy' hx'
    have hr1 := rect_setCell hr 0 i borderHChar
    rw [getCell_setCell hr1 (by omega) hiW borderHChar,
      getCell_setCell hr (by omega) hiW borderHChar]
    by_cases h1 : x' = i
    · by_cases h2 : y' = 0
      · by_cases h3 : y' = fullHeight - 1 <;> simp [h1, h2, h3]
      · by_cases h3 : y' = fullHeight - 1 <;> simp [h1, h2, h3]
    · simp [h1]
  rw [hmain]
  by_cases hedge : y = 0 ∨ y = fullHeight - 1
  · simp only [if_pos hedge]
    rw [if_pos ⟨x, List.mem_range.mpr hx, rfl, hedge⟩]
  · simp only [if_neg hedge]
    rw [if_neg]
    rintro ⟨i, -, -, hc⟩
    exact hedge hc

theorem rect_drawCorners {g : List (List Char)}
    (hrect : Rect g fullHeight fullWidth) :
    Rect (drawCorners g) fullHeight fullWidth := by
  unfold drawCorners
  exact rect_setCell (rect_setCell (rect_setCell (rect_setCell hrect 0 0
    cornerTLChar) 0 (fullWidth - 1) cornerTRChar) (fullHeight - 1) 0
    cornerBLChar) (fullHeight - 1) (fullWidth - 1) cornerBRChar

theorem getCell_drawCorners {g : List (List Char)}
    (hrect : Rect g fullHeight fullWidth) {y x : Nat} (hy : y < fullHeight)
    (hx : x < fullWidth) :
    getCell (drawCorners g) y x
      = if y = fullHeight - 1 ∧ x = fullWidth - 1 then some cornerBRChar
        else if y = fullHeight - 1 ∧ x = 0 then some cornerBLChar
        else if y = 0 ∧ x = fullWidth - 1 then some cornerTRChar
        else if y = 0 ∧ x = 0 then some cornerTLChar
        else getCell g y x := by
  have hH : fullHeight = 22 := rfl
  have hW : fullWidth = 42 := rfl
  have hr1 := rect_setCell hrect 0 0 cornerTLChar
  have hr2 := rect_setCell hr1 0 (fullWidth - 1) cornerTRChar
  have hr3 := rect_setCell hr2 (fullHeight - 1) 0 cornerBLChar
  unfold drawCorners
  rw [getCell_setCell hr3 (by omega) (by omega) cornerBRChar,
    getCell_setCell hr2 (by omega) (by omega) cornerBLChar,
    getCell_setCell hr1 (by omega) (by omega) cornerTRChar,
    getCell_setCell hrect (by omega) (by omega) cornerTLChar]

theorem rect_copyRow (board : List (List Char)) (i : Nat)
    {f : List (List Char)} (hrect : Rect f fullHeight fullWidth) :
    Rect ((List.range width.toNat).foldl
      (fun f2 j => setCell f2 (i + 1) (j + 1) (getCellD board i j)) f)
      fullHeight fullWidth :=
  rect_writeFold _ (fun _ => True)
    (fun f2 j _ hr => rect_setCell hr (i + 1) (j + 1) (getCellD board i j))
    (List.range width.toNat) (fun _ _ => trivial) f hrect

theorem getCell_copyRow (board : List (List Char)) (i : Nat)
    {f : List (List Char)} (hrect : Rect f fullHeight fullWidth)
    (hi : i < height.toNat) {y x : Nat} (hy : y < fullHeight)
    (hx : x < fullWidth) :
    getCell ((List.range width.toNat).foldl
      (fun f2 j => setCell f2 (i + 1) (j + 1) (getCellD board i j)) f) y x
      = if y = i + 1 ∧ 1 ≤ x ∧ x < width.toNat + 1
        then some (getCellD board i (x - 1)) else getCell f y x := by
  have hH : fullHeight = 22 := rfl
  have hW : fullWidth = 42 := rfl
  have hh : height.toNat = 20 := rfl
  have hw : width.toNat = 40 := rfl
  have hmain : getCell ((List.range width.toNat).foldl
      (fun f2 j => setCell f2 (i + 1) (j + 1) (getCellD board i j)) f) y x
      = if ∃ j ∈ List.range width.toNat, y = i + 1 ∧ x = j + 1
        then some (getCellD board i (x - 1)) else getCell f y x := by
    refine getCell_writeFold _ (fun j => j < width.toNat)
      (fun j y x => y = i + 1 ∧ x = j + 1)
      (fun _ x => getCellD board i (x - 1))
      (fun f2 j _ hr => rect_setCell hr (i + 1) (j + 1) (getCellD board i j))
      ?_ (List.range width.toNat) (by simp) f hrect y x hy hx
    intro f2 j hjW hr y' x' hy' hx'
    rw [getCell_setCell hr (by omega) (by omega) (getCellD board i j)]
    by_cases h1 : y' = i + 1 ∧ x' = j + 1
    · rw [if_pos h1, if_pos h1]
      show some (getCellD board i j) = some (getCellD board i (x' - 1))
      rw [show x' - 1 = j by omega]
    · rw [if_neg h1, if_neg h1]
  rw [hmain]
  by_cases hc : y = i + 1 ∧ 1 ≤ x ∧ x < width.toNat + 1
  · rw [if_pos hc, if_pos]
    exact ⟨x - 1, List.mem_range.mpr (by omega), hc.1, by omega⟩
  · rw [if_neg hc, if_neg]
    rintro ⟨j, hj, hyx, hxj⟩
    have := List.mem_range.mp hj
    exact hc ⟨hyx, by omega, by omega⟩

theorem rect_copyInterior (full board : List (List Char))
    (hrect : Rect full fullHeight fullWidth) :
    Rect (copyInterior full board) fullHeight fullWidth := by
  unfold copyInterior
  exact rect_writeFold _ (fun _ => True)
    (fun f i _ hr => rect_copyRow board i hr)
    (List.range height.toNat) (fun _ _ => trivial) full hrect

theorem getCell_copyInterior (full board : List (List Char))
    (hrect : Rect full fullHeight fullWidth) {y x : Nat} (hy : y < fullHeight)
    (hx : x < fullWidth) :
    getCell (copyInterior full board) y x
      = if 1 ≤ y ∧ y < height.toNat + 1 ∧ 1 ≤ x ∧ x < width.toNat + 1
        then some (getCellD board (y - 1) (x - 1)) else getCell full y x := by
  have hmain : getCell (copyInterior full board) y x
      = if ∃ i ∈ List.range height.toNat,
            y = i + 1 ∧ 1 ≤ x ∧ x < width.toNat + 1
        then some (getCellD board (y - 1) (x - 1)) else getCell full y x := by
    unfold copyInterior
    refine getCell_writeFold _ (fun i => i < height.toNat)
      (fun i y x => y = i + 1 ∧ 1 ≤ x ∧ x < width.toNat + 1)
      (fun y x => getCellD board (y - 1) (x - 1))
      (fun f i _ hr => rect_copyRow board i hr)
      ?_ (List.range height.toNat) (by simp) full hrect y x hy hx
    intro f i hiH hr y' x' hy' hx'
    rw [getCell_copyRow board i hr hiH hy' hx']
    by_cases h1 : y' = i + 1 ∧ 1 ≤ x' ∧ x' < width.toNat + 1
    · rw [if_pos h1, if_pos h1]
      show some (getCellD board i (x' - 1))
        = some (getCellD board (y' - 1) (x' - 1))
      rw [show y' - 1 = i by omega]
    · rw [if_neg h1, if_neg h1]
  rw [hmain]
  by_cases hc : 1 ≤ y ∧ y < height.toNat + 1 ∧ 1 ≤ x ∧ x < width.toNat + 1
  · rw [if_pos hc, if_pos]
    exact ⟨y - 1, List.mem_range.mpr (by omega), by omega, hc.2.2⟩
  · rw [if_neg hc, if_neg]
    rintro ⟨i, hi, hyx, hx1, hx2⟩
    have := List.mem_range.mp hi
    exact hc ⟨by omega, by omega, hx1, hx2⟩

theorem rect_createFullBoard (board : List (List Char)) :
    Rect (createFullBoard board) fullHeight fullWidth := by
  unfold createFullBoard
  exact rect_copyInterior _ _ (rect_drawCorners (rect_drawTopBottomBorders
    (rect_drawSideBorders (rect_replicate fullHeight fullWidth
      fullBoardBackground))))

theorem rect_createBaseBoard : Rect createBaseBoard height.toNat width.toNat := by
  unfold createBaseBoard
  exact rect_replicate _ _ _

theorem rect_renderEnemies {board : List (List Char)}
    (hrect : Rect board height.toNat width.toNat) (es : List Enemy) :
    Rect (renderEnemies board es) height.toNat width.toNat := by
  unfold renderEnemies
  exact rect_writeFold _ (fun _ => True)
    (fun g e _ hr => rect_setCell hr e.y.toNat e.x.toNat e.character)
    es (fun _ _ => trivial) board hrect

theorem rect_renderBullets {board : List (List Char)}
    (hrect : Rect board height.toNat width.toNat) (bs : List Bullet) :
    Rect (renderBullets board bs) height.toNat width.toNat := by
  unfold renderBullets
  exact rect_writeFold _ (fun _ => True)
    (fun g b _ hr => rect_setCell hr b.y.toNat b.x.toNat b.character)
    bs (fun _ _ => trivial) board hrect

theorem getCell_renderEnemies {board : List (List Char)}
    (hrect : Rect board height.toNat width.toNat) {es : List Enemy}
    (hes : ∀ e ∈ es, 0 ≤ e.x ∧ e.x < width ∧ 0 ≤ e.y ∧ e.y < height ∧
      e.character = enemyChar)
    {y x : Nat} (hy : y < height.toNat) (hx : x < width.toNat) :
    getCell (renderEnemies board es) y x
      = if ∃ e ∈ es, y = e.y.toNat ∧ x = e.x.toNat then some enemyChar
        else getCell board y x := by
  have hh : height = 20 := rfl
  have hw : width = 40 := rfl
  have hh' : height.toNat = 20 := rfl
  have hw' : width.toNat = 40 := rfl
  unfold renderEnemies
  refine getCell_writeFold _
    (fun e => 0 ≤ e.x ∧ e.x < width ∧ 0 ≤ e.y ∧ e.y < height ∧
      e.character = enemyChar)
    (fun e y x => y = e.y.toNat ∧ x = e.x.toNat) (fun _ _ => enemyChar)
    (fun g e _ hr => rect_setCell hr e.y.toNat e.x.toNat e.character)
    ?_ es hes board hrect y x hy hx
  intro g e hQ hr y' x' hy' hx'
  obtain ⟨hex0, hex1, hey0, hey1, hchar⟩ := hQ
  rw [hchar, getCell_setCell hr (show e.y.toNat < height.toNat by omega)
    (show e.x.toNat < width.toNat by omega) enemyChar]

theorem getCell_renderBullets {board : List (List Char)}
    (hrect : Rect board height.toNat width.toNat) {bs : List Bullet}
    (hbs : ∀ b ∈ bs, 0 ≤ b.x ∧ b.x < width ∧ 0 ≤ b.y ∧ b.y < height ∧
      b.character = bulletChar)
    {y x : Nat} (hy : y < height.toNat) (hx : x < width.toNat) :
    getCell (renderBullets board bs) y x
      = if ∃ b ∈ bs, y = b.y.toNat ∧ x = b.x.toNat then some bulletChar
        else getCell board y x := by
  have hh : height = 20 := rfl
  have hw : width = 40 := rfl
  have hh' : height.toNat = 20 := rfl
  have hw' : width.toNat = 40 := rfl
  unfold renderBullets
  refine getCell_writeFold _
    (fun b => 0 ≤ b.x ∧ b.x < width ∧ 0 ≤ b.y ∧ b.y < height ∧
      b.character = bulletChar)
    (fun b y x => y = b.y.toNat ∧ x = b.x.toNat) (fun _ _ => bulletChar)
    (fun g b _ hr => rect_setCell hr b.y.toNat b.x.toNat b.character)
    ?_ bs hbs board hrect y x hy hx
  intro g b hQ hr y' x' hy' hx'
  obtain ⟨hbx0, hbx1, hby0, hby1, hchar⟩ := hQ
  rw [hchar, getCell_setCell hr (show b.y.toNat < height.toNat by omega)
    (show b.x.toNat < width.toNat by omega) bulletChar]

theorem rect_baseBoardFor (s : GameState) :
    Rect (baseBoardFor s) height.toNat width.toNat := by
  unfold baseBoardFor
  exact rect_setCell (rect_renderBullets (rect_renderEnemies
    rect_createBaseBoard s.enemies) s.bullets) s.player.y.toNat
    s.player.x.toNat playerChar

theorem getCell_baseBoardFor (s : GameState)
    (hes : ∀ e ∈ s.enemies, 0 ≤ e.x ∧ e.x < width ∧ 0 ≤ e.y ∧ e.y < height ∧
      e.character = enemyChar)
    (hbs : ∀ b ∈ s.bullets, 0 ≤ b.x ∧ b.x < width ∧ 0 ≤ b.y ∧ b.y < height ∧
      b.character = bulletChar)
    (hp : 0 ≤ s.player.x ∧ s.player.x < width ∧
      0 ≤ s.player.y ∧ s.player.y < height)
    {i j : Nat} (hi : i < height.toNat) (hj : j < width.toNat) :
    getCell (baseBoardFor s) i j
      = some (if i = s.player.y.toNat ∧ j = s.player.x.toNat then playerChar
        else if ∃ b ∈ s.bullets, i = b.y.toNat ∧ j = b.x.toNat then bulletChar
        else if ∃ e ∈ s.enemies, i = e.y.toNat ∧ j = e.x.toNat then enemyChar
        else baseBoardBackground) := by
  obtain ⟨hp0, hp1, hp2, hp3⟩ := hp
  have hh : height = 20 := rfl
  have hw : width = 40 := rfl
  have hh' : height.toNat = 20 := rfl
  have hw' : width.toNat = 40 := rfl
  have hb1 := rect_renderEnemies rect_createBaseBoard s.enemies
  have hb2 := rect_renderBullets hb1 s.bullets
  unfold baseBoardFor
  rw [getCell_setCell hb2 (show s.player.y.toNat < height.toNat by omega)
    (show s.player.x.toNat < width.toNat by omega) playerChar]
  by_cases h1 : i = s.player.y.toNat ∧ j = s.player.x.toNat
  · rw [if_pos h1, if_pos h1]
  · rw [if_neg h1, if_neg h1]
    rw [getCell_renderBullets hb1 hbs hi hj]
    by_cases h2 : ∃ b ∈ s.bullets, i = b.y.toNat ∧ j = b.x.toNat
    · rw [if_pos h2, if_pos h2]
    · rw [if_neg h2, if_neg h2]
      rw [getCell_renderEnemies rect_createBaseBoard hes hi hj]
      by_cases h3 : ∃ e ∈ s.enemies, i = e.y.toNat ∧ j = e.x.toNat
      · rw [if_pos h3, if_pos h3]
      · rw [if_neg h3, if_neg h3]
        unfold createBaseBoard
        rw [getCell_replicate baseBoardBackground hi hj]

theorem getCell_createFullBoard (board : List (List Char)) {y x : Nat}
    (hy : y < fullHeight) (hx : x < fullWidth) :
    getCell (createFullBoard board) y x
      = if 1 ≤ y ∧ y < height.toNat + 1 ∧ 1 ≤ x ∧ x < width.toNat + 1
        then some (getCellD board (y - 1) (x - 1))
        else if y = fullHeight - 1 ∧ x = fullWidth - 1 then some cornerBRChar
        else if y = fullHeight - 1 ∧ x = 0 then some cornerBLChar
        else if y = 0 ∧ x = fullWidth - 1 then some cornerTRChar
        else if y = 0 ∧ x = 0 then some cornerTLChar
        else if y = 0 ∨ y = fullHeight - 1 then some borderHChar
        else if x = 0 ∨ x = fullWidth - 1 then some borderVChar
        else some fullBoardBackground := by
  have hr0 := rect_replicate fullHeight fullWidth fullBoardBackground
  have hr1 := rect_drawSideBorders hr0
  have hr2 := rect_drawTopBottomBorders hr1
  have hr3 := rect_drawCorners hr2
  unfold createFullBoard
  rw [getCell_copyInterior _ _ hr3 hy hx, getCell_drawCorners hr2 hy hx,
    getCell_drawTopBottomBorders hr1 hy hx, getCell_drawSideBorders hr0 hy hx,
    getCell_replicate fullBoardBackground hy hx]

/-- C8: for an on-board entity state (all entities within the board, each
carrying its constructor's character), `render` produces a rectangular
`(height+2) × (width+2)` grid of single characters; each interior cell
shows the player's character at the player's cell (drawn last, over
anything), else a bullet character where some bullet sits, else an enemy
character where some enemy sits, else the base background; the frame
carries the four distinct corner characters and the horizontal/vertical
edge characters; and rendering leaves the game state untouched. -/
theorem render_grid_spec (s : GameState)
    (hes : ∀ e ∈ s.enemies, 0 ≤ e.x ∧ e.x < width ∧ 0 ≤ e.y ∧ e.y < height ∧
      e.character = enemyChar)
    (hbs : ∀ b ∈ s.bullets, 0 ≤ b.x ∧ b.x < width ∧ 0 ≤ b.y ∧ b.y < height ∧
      b.character = bulletChar)
    (hp : 0 ≤ s.player.x ∧ s.player.x < width ∧
      0 ≤ s.player.y ∧ s.player.y < height) :
    (renderGrid s).length = height.toNat + 2 ∧
    (∀ row ∈ renderGrid s, row.length = width.toNat + 2) ∧
    (∀ i j : Nat, i < height.toNat → j < width.toNat →
      getCell (renderGrid s) (i + 1) (j + 1)
        = some (if s.player.y = (i : Int) ∧ s.player.x = (j : Int)
            then playerChar
          else if ∃ b ∈ s.bullets, b.y = (i : Int) ∧ b.x = (j : Int)
            then bulletChar
          else if ∃ e ∈ s.enemies, e.y = (i : Int) ∧ e.x = (j : Int)
            then enemyChar
          else baseBoardBackground)) ∧
    getCell (renderGrid s) 0 0 = some cornerTLChar ∧
    getCell (renderGrid s) 0 (fullWidth - 1) = some cornerTRChar ∧
    getCell (renderGrid s) (fullHeight - 1) 0 = some cornerBLChar ∧
    getCell (renderGrid s) (fullHeight - 1) (fullWidth - 1)
      = some cornerBRChar ∧
    (∀ i : Nat, 0 < i → i < fullHeight - 1 →
      getCell (renderGrid s) i 0 = some borderVChar ∧
      getCell (renderGrid s) i (fullWidth - 1) = some borderVChar) ∧
    (∀ j : Nat, 0 < j → j < fullWidth - 1 →
      getCell (renderGrid s) 0 j = some borderHChar ∧
      getCell (renderGrid s) (fullHeight - 1) j = some borderHChar) ∧
    (renderRun s).1 = s := by
  have hgr : renderGrid s = createFullBoard (baseBoardFor s) := rfl
  have hrect := rect_createFullBoard (baseBoardFor s)
  have hH : fullHeight = 22 := rfl
  have hW : fullWidth = 42 := rfl
  have hh' : height.toNat = 20 := rfl
  have hw' : width.toNat = 40 := rfl
  refine ⟨?_, ?_, ?_, ?_, ?_, ?_, ?_, ?_, ?_, rfl⟩
  · rw [hgr]
    exact hrect.1
  · rw [hgr]
    exact hrect.2
  · intro i j hi hj
    rw [hgr, getCell_createFullBoard _ (show i + 1 < fullHeight by omega)
      (show j + 1 < fullWidth by omega)]
    rw [if_pos ⟨by omega, by omega, by omega, by omega⟩]
    simp only [Nat.add_sub_cancel]
    have h2 := getCell_baseBoardFor s hes hbs hp hi hj
    have h3 := getCell_eq_getCellD (rect_baseBoardFor s) hi hj
    have h4 := Option.some.inj (h3.symm.trans h2)
    rw [h4]
    obtain ⟨hp0, hp1, hp2, hp3⟩ := hp
    refine congrArg some
      (if_congr (by omega) rfl (if_congr ?_ rfl (if_congr ?_ rfl rfl)))
    · constructor
      · rintro ⟨b, hbm, hb1, hb2⟩
        obtain ⟨b0, b1, b2, b3, -⟩ := hbs b hbm
        exact ⟨b, hbm, by omega, by omega⟩
      · rintro ⟨b, hbm, hb1, hb2⟩
        obtain ⟨b0, b1, b2, b3, -⟩ := hbs b hbm
        exact ⟨b, hbm, by omega, by omega⟩
    · constructor
      · rintro ⟨e, hem, he1, he2⟩
        obtain ⟨e0, e1, e2, e3, -⟩ := hes e hem
        exact ⟨e, hem, by omega, by omega⟩
      · rintro ⟨e, hem, he1, he2⟩
        obtain ⟨e0, e1, e2, e3, -⟩ := hes e hem
        exact ⟨e, hem, by omega, by omega⟩
  · rw [hgr, getCell_createFullBoard _ (by omega) (by omega)]
    rw [if_neg (by omega), if_neg (by omega), if_neg (by omega),
      if_neg (by omega), if_pos (by omega)]
  · rw [hgr, getCell_createFullBoard _ (by omega) (by omega)]
    rw [if_neg (by omega), if_neg (by omega), if_neg (by omega),
      if_pos (by omega)]
  · rw [hgr, getCell_createFullBoard _ (by omega) (by omega)]
    rw [if_neg (by omega), if_neg (by omega), if_pos (by omega)]
  · rw [hgr, getCell_createFullBoard _ (by omega) (by omega)]
    rw [if_neg (by omega), if_pos (by omega)]
  · intro i h0 h1
    constructor
    · rw [hgr, getCell_createFullBoard _ (by omega) (by omega)]
      rw [if_neg (by omega), if_neg (by omega), if_neg (by omega),
        if_neg (by omega), if_neg (by omega), if_neg (by omega),
        if_pos (by omega)]
    · rw [hgr, getCell_createFullBoard _ (by omega) (by omega)]
      rw [if_neg (by omega), if_neg (by omega), if_neg (by omega),
        if_neg (by omega), if_neg (by omega), if_neg (by omega),
        if_pos (by omega)]
  · intro j h0 h1
    constructor
    · rw [hgr, getCell_createFullBoard _ (by omega) (by omega)]
      rw [if_neg (by omega), if_neg (by omega), if_neg (by omega),
        if_neg (by omega), if_neg (by omega), if_pos (by omega)]
    · rw [hgr, getCell_createFullBoard _ (by omega) (by omega)]
      rw [if_neg (by omega), if_neg (by omega), if_neg (by omega),
        if_neg (by omega), if_neg (by omega), if_pos (by omega)]

theorem render_grid_spec_witness :
    getCell (renderGrid initState) 0 0 = some cornerTLChar :=
  (render_grid_spec initState (by decide) (by decide)
    (by decide)).2.2.2.1

end SpaceInvaders
